import Mathlib

/-!
Shallow embedding of the retry-loop guard from
`src/packages/core/src/generated/build-info.ts` (the `ToolExecutionValidator`
class and the `generateToolKey` helper).

Modelling conventions:
* JavaScript values reaching the guard (the `params : unknown` arguments, the
  `context` field of `ToolErrorInfo`) are modelled by the inductive `JSValue`.
  JavaScript numbers are modelled as `Int` (all values appearing in the code
  and claims are small integers, exactly representable as floats).
* A JavaScript object cannot hold two properties of the same name, so an
  `obj` field list with non-duplicated keys is the image of a real object;
  well-formedness hypotheses (`Nodup` of the key list) appear where a proof
  needs that fact.
* Throwing a `TypeError` is modelled by returning `none`:
  `Object.keys(params)` throws exactly when `params` is `null` or `undefined`,
  so `generateToolKey` (and every guard operation calling it) is `Option`-valued.
* `Date.now()` is passed in explicitly as `now : Int`; a single call of the
  guard reads the clock through one `now` (the clock is not assumed to advance
  in the middle of one synchronous method).
* The `Map<string, FailureInfo>` is modelled as an insertion-ordered
  association list `List (String × FailureInfo)`; `Map.get/set/delete`
  become `mapGet/mapSet/mapDelete`.
-/

/-- A JavaScript value as it can appear in `params` or in `errorInfo.context`.
`undefined` and `null` are distinct, as in JavaScript. -/
inductive JSValue : Type where
  | undefined : JSValue
  | null : JSValue
  | bool : Bool → JSValue
  | num : Int → JSValue
  | str : String → JSValue
  | arr : List JSValue → JSValue
  | obj : List (String × JSValue) → JSValue
deriving Repr

/-- Hex digit for `\u....` escapes produced by `JSON.stringify`. -/
def hexDigit (n : Nat) : String :=
  if n = 10 then "a" else if n = 11 then "b" else if n = 12 then "c"
  else if n = 13 then "d" else if n = 14 then "e" else if n = 15 then "f"
  else toString n

/-- Four-hex-digit rendering used by `\u....` escapes. -/
def hex4 (n : Nat) : String :=
  hexDigit (n / 4096 % 16) ++ hexDigit (n / 256 % 16) ++
    hexDigit (n / 16 % 16) ++ hexDigit (n % 16)

/-- One character of ECMA-262 `QuoteJSONString`: escape `"` and backslash,
the named control escapes, and other control characters as `\u....`. -/
def quoteChar (c : Char) : String :=
  if c = '"' then "\\\""
  else if c = '\\' then "\\\\"
  else if c = '\x08' then "\\b"
  else if c = '\x0c' then "\\f"
  else if c = '\n' then "\\n"
  else if c = '\r' then "\\r"
  else if c = '\t' then "\\t"
  else if c.toNat < 32 then "\\u" ++ hex4 c.toNat
  else String.singleton c

/-- ECMA-262 `QuoteJSONString`. -/
def quoteStr (s : String) : String :=
  "\"" ++ String.join (s.toList.map quoteChar) ++ "\""

mutual
/-- ECMA-262 `SerializeJSONProperty` for `JSON.stringify(v, props)` where the
replacer `props` is an array of property names (here: the sorted top-level
keys).  `none` is the abstract `undefined` result (the value is skipped in
objects and rendered `"null"` in arrays).  The property list filters every
object at every depth, but never array elements. -/
def serializeVal (props : List String) : JSValue → Option String
  | JSValue.undefined => none
  | JSValue.null => some "null"
  | JSValue.bool b => some (if b then "true" else "false")
  | JSValue.num n => some (toString n)
  | JSValue.str s => some (quoteStr s)
  | JSValue.arr xs => some ("[" ++ String.intercalate "," (serializeElems props xs) ++ "]")
  | JSValue.obj fs =>
      some ("\x7b" ++ String.intercalate "," (serializeMembers props fs props) ++ "\x7d")
termination_by v => (sizeOf v, 0)
decreasing_by all_goals simp_wf; omega

/-- `SerializeJSONArray`: every element is serialized; an `undefined`
serialization becomes the literal `null`. -/
def serializeElems (props : List String) : List JSValue → List String
  | [] => []
  | x :: xs => (serializeVal props x).getD "null" :: serializeElems props xs
termination_by xs => (sizeOf xs, 0)
decreasing_by all_goals simp_wf; omega

/-- `SerializeJSONObject` with property list `props`: iterate the property
list in order, look each name up in the object, and keep the members whose
value serializes to something (absent properties and `undefined` values are
skipped). -/
def serializeMembers (props : List String) (fs : List (String × JSValue)) :
    List String → List String
  | [] => []
  | p :: ps =>
      match serializeField props p fs with
      | some (some s) => (quoteStr p ++ ":" ++ s) :: serializeMembers props fs ps
      | _ => serializeMembers props fs ps
termination_by ps => (sizeOf fs, 1 + ps.length)
decreasing_by all_goals simp_wf; omega

/-- Look property `p` up in the field list and serialize its value:
`none` = the property is absent, `some none` = present with an `undefined`
serialization, `some (some s)` = present and serializing to `s`. -/
def serializeField (props : List String) (p : String) :
    List (String × JSValue) → Option (Option String)
  | [] => none
  | (k, v) :: tl =>
      if k = p then some (serializeVal props v) else serializeField props p tl
termination_by fs => (sizeOf fs, 0)
decreasing_by all_goals simp_wf; omega
end

/-- `Object.keys`, restricted to the values the guard can receive: throws
(`none`) on `null`/`undefined`; index names for strings and arrays; the own
property names for objects (a real JavaScript object has pairwise distinct
property names). -/
def jsKeys : JSValue → Option (List String)
  | JSValue.undefined => none
  | JSValue.null => none
  | JSValue.bool _ => some []
  | JSValue.num _ => some []
  | JSValue.str s => some ((List.range s.length).map (fun i => toString i))
  | JSValue.arr xs => some ((List.range xs.length).map (fun i => toString i))
  | JSValue.obj fs => some (fs.map Prod.fst)

/-- Lexicographic comparison of character lists, deciding ties position by
position by the numeric character value — the comparison
`String.prototype.sort`'s default comparator performs on UTF-16 code-unit
sequences (identical to code-point order for the BMP strings that arise as
property names here). -/
def charListLe : List Char → List Char → Bool
  | [], _ => true
  | _ :: _, [] => false
  | a :: as, b :: bs => if a = b then charListLe as bs else decide (a < b)

/-- String comparison of `Array.prototype.sort()`'s default comparator. -/
def strLe (a b : String) : Bool := charListLe a.data b.data

/-- `Array.prototype.sort()` on an array of strings.  Any sort that is
sorted for `strLe` agrees with the JavaScript result on the duplicate-free
key lists the guard produces. -/
def sortKeys (ks : List String) : List String :=
  List.insertionSort (fun a b => strLe a b = true) ks

/-- `generateToolKey` from the source:
`` JSON.stringify(params, Object.keys(params as object).sort()) `` prefixed by
the tool name and a colon.  `none` models the `TypeError` that
`Object.keys` raises on `null`/`undefined` parameters. -/
def generateToolKey (toolName : String) (params : JSValue) : Option String :=
  match jsKeys params with
  | none => none
  | some ks =>
      some (toolName ++ ":" ++ ((serializeVal (sortKeys ks) params).getD "undefined"))

example : generateToolKey "replace"
    (JSValue.obj [("file", JSValue.str "a.txt")]) =
    some "replace:\x7b\"file\":\"a.txt\"\x7d" := by
  simp [generateToolKey, jsKeys, sortKeys, serializeVal, serializeMembers,
    serializeField, quoteStr, quoteChar, String.intercalate]
  rfl

/-- The `ToolErrorInfo` shape, as the validator uses it (the interface itself
lives in `../tools/tools.js`; its fields are read off the validator's code and
the spec's ErrorInfo description: a `code`, a free-form `context`, and a list
of `requiredActions`). -/
structure ToolErrorInfo where
  code : String
  context : JSValue
  requiredActions : List String
deriving Repr

/-- `FailureInfo` from the source. -/
structure FailureInfo where
  timestamp : Int
  errorInfo : ToolErrorInfo
  requiredActions : List String
  wasAddressed : Bool
deriving Repr

/-- `ValidationResult` from the source; the three optional fields are absent
(`none`) on every `allowed` result the code produces. -/
structure ValidationResult where
  allowed : Bool
  reason : Option String
  requiredActions : Option (List String)
  previousFailure : Option FailureInfo
deriving Repr

/-- An entry of the `recentToolCalls` trace fed to `detectDiagnosticActions`. -/
structure ToolCallRecord where
  name : String
  params : JSValue
  success : Bool

/-- `Map.prototype.get`. -/
def mapGet (k : String) : List (String × FailureInfo) → Option FailureInfo
  | [] => none
  | (k', f) :: tl => if k' = k then some f else mapGet k tl

/-- `Map.prototype.set`: replace the entry in place if the key is present
(keeping its position, as a JavaScript `Map` does), else append. -/
def mapSet (k : String) (f : FailureInfo) :
    List (String × FailureInfo) → List (String × FailureInfo)
  | [] => [(k, f)]
  | (k', f') :: tl => if k' = k then (k, f) :: tl else (k', f') :: mapSet k f tl

/-- `Map.prototype.delete`: remove the entry for the key (a `Map` holds at
most one). -/
def mapDelete (k : String) :
    List (String × FailureInfo) → List (String × FailureInfo)
  | [] => []
  | (k', f') :: tl => if k' = k then tl else (k', f') :: mapDelete k tl

/-- The `ToolExecutionValidator` state: the `recentFailures` map plus the two
configuration windows fixed at construction. -/
structure ToolExecutionValidator where
  recentFailures : List (String × FailureInfo)
  failureTimeoutMs : Int
  maxFailureAge : Int

/-- The map of a real validator has one entry per fingerprint. -/
def StoreWF (v : ToolExecutionValidator) : Prop :=
  (v.recentFailures.map Prod.fst).Nodup

/-- `cleanupOldFailures`: delete every record with `now - timestamp > maxFailureAge`. -/
def ToolExecutionValidator.cleanupOldFailures (v : ToolExecutionValidator)
    (now : Int) : ToolExecutionValidator :=
  { v with recentFailures :=
      v.recentFailures.filter (fun kf => decide (now - kf.2.timestamp ≤ v.maxFailureAge)) }

/-- `Math.round(t / 1000)` for an integral number of milliseconds `t`:
round half toward positive infinity. -/
def jsRoundDiv1000 (t : Int) : Int := (t + 500).fdiv 1000

/-- The template literal of the blocked branch of `validateBeforeExecution`. -/
def mkBlockReason (elapsed : Int) : String :=
  "Previous identical tool call failed " ++ toString (jsRoundDiv1000 elapsed) ++
    "s ago and required actions have not been addressed."

/-- `validateBeforeExecution`.  The first component is `none` when
`generateToolKey` throws (`null`/`undefined` params); the second component is
the state of the validator when the method finishes or the exception escapes
— the cleanup pass has run either way, because it precedes the key
computation in the source. -/
def ToolExecutionValidator.validateBeforeExecution (v : ToolExecutionValidator)
    (now : Int) (toolName : String) (params : JSValue) :
    Option ValidationResult × ToolExecutionValidator :=
  let v₁ := v.cleanupOldFailures now
  match generateToolKey toolName params with
  | none => (none, v₁)
  | some key =>
      match mapGet key v₁.recentFailures with
      | none => (some ⟨true, none, none, none⟩, v₁)
      | some recentFailure =>
          let timeSinceFailure := now - recentFailure.timestamp
          if timeSinceFailure < v₁.failureTimeoutMs ∧ recentFailure.wasAddressed = false then
            (some ⟨false, some (mkBlockReason timeSinceFailure),
              some recentFailure.requiredActions, some recentFailure⟩, v₁)
          else
            (some ⟨true, none, none, none⟩, v₁)

/-- `recordFailure`: unconditionally (re)create the record for the
fingerprint, timestamped now, with `wasAddressed = false`.  `none` models the
`TypeError` thrown by `generateToolKey`. -/
def ToolExecutionValidator.recordFailure (v : ToolExecutionValidator)
    (now : Int) (toolName : String) (params : JSValue)
    (errorInfo : ToolErrorInfo) : Option ToolExecutionValidator :=
  match generateToolKey toolName params with
  | none => none
  | some key =>
      let failureInfo : FailureInfo := ⟨now, errorInfo, errorInfo.requiredActions, false⟩
      some { v with recentFailures := mapSet key failureInfo v.recentFailures }

/-- `recordSuccess`: delete any record for the fingerprint. -/
def ToolExecutionValidator.recordSuccess (v : ToolExecutionValidator)
    (toolName : String) (params : JSValue) : Option ToolExecutionValidator :=
  match generateToolKey toolName params with
  | none => none
  | some key => some { v with recentFailures := mapDelete key v.recentFailures }

/-- `markFailureAddressed`: if a record exists, set `wasAddressed := true` in
place (the source mutates the stored object and re-`set`s it under the same
key); no-op when the fingerprint has no record. -/
def ToolExecutionValidator.markFailureAddressed (v : ToolExecutionValidator)
    (toolName : String) (params : JSValue) : Option ToolExecutionValidator :=
  match generateToolKey toolName params with
  | none => none
  | some key =>
      match mapGet key v.recentFailures with
      | none => some v
      | some failure =>
          let addressed : FailureInfo := { failure with wasAddressed := true }
          some { v with recentFailures := mapSet key addressed v.recentFailures }

/-- The hardcoded diagnostic tool list of `detectDiagnosticActions`. -/
def diagnosticTools : List String := ["read_file", "list_directory", "grep", "glob"]

/-- Property access `v[name]` as the reconciliation pass performs it through
optional chaining: `undefined` on everything that is not an object holding
the property. -/
def jsGetProp (name : String) : JSValue → JSValue
  | JSValue.obj fs => jsField name fs
  | _ => JSValue.undefined
where
  jsField (name : String) : List (String × JSValue) → JSValue
    | [] => JSValue.undefined
    | (k, v) :: tl => if k = name then v else jsField name tl

/-- JavaScript truthiness of the values `JSValue` can hold (`NaN` does not
arise: numbers are integral). -/
def jsTruthy : JSValue → Bool
  | JSValue.undefined => false
  | JSValue.null => false
  | JSValue.bool b => b
  | JSValue.num n => decide (n ≠ 0)
  | JSValue.str s => decide (s ≠ "")
  | JSValue.arr _ => true
  | JSValue.obj _ => true

/-- Strict equality `===` as used in `context?.filePath === filePath`:
structural on primitives; two object (or array) values obtained from
independently built structures are distinct references, hence `false`. -/
def jsStrictEq : JSValue → JSValue → Bool
  | JSValue.undefined, JSValue.undefined => true
  | JSValue.null, JSValue.null => true
  | JSValue.bool a, JSValue.bool b => a == b
  | JSValue.num a, JSValue.num b => a == b
  | JSValue.str a, JSValue.str b => a == b
  | _, _ => false

/-- JavaScript `String.prototype.startsWith`: prefix comparison of the
character sequences. -/
def jsStartsWith (s pre : String) : Bool := pre.data.isPrefixOf s.data

/-- The condition under which `markRelatedFailuresAddressed` flips one stored
entry: the fingerprint belongs to the `replace` tool, the stored context's
`filePath` strictly equals the diagnostic call's `file_path`, and the error
code is one of the two edit-failure codes. -/
abbrev relatedFailure (filePath : JSValue) (k : String) (f : FailureInfo) : Prop :=
  jsStartsWith k "replace:" = true ∧
    jsStrictEq (jsGetProp "filePath" f.errorInfo.context) filePath = true ∧
    (f.errorInfo.code = "EDIT_TEXT_NOT_FOUND" ∨ f.errorInfo.code = "EDIT_MULTIPLE_MATCHES")

/-- `markRelatedFailuresAddressed`: only a successful `read_file` with a
truthy `file_path` marks anything; it sets `wasAddressed := true` on every
related entry of the map. -/
def ToolExecutionValidator.markRelatedFailuresAddressed
    (v : ToolExecutionValidator) (call : ToolCallRecord) : ToolExecutionValidator :=
  if call.name = "read_file" then
    let filePath := jsGetProp "file_path" call.params
    if jsTruthy filePath then
      { v with recentFailures :=
          v.recentFailures.map (fun kf =>
            if relatedFailure filePath kf.1 kf.2
            then (kf.1, { kf.2 with wasAddressed := true }) else kf) }
    else v
  else v

/-- `detectDiagnosticActions`: run the reconciliation step for every
successful call to one of the diagnostic tools, in trace order. -/
def ToolExecutionValidator.detectDiagnosticActions (v : ToolExecutionValidator)
    (recentToolCalls : List ToolCallRecord) : ToolExecutionValidator :=
  recentToolCalls.foldl
    (fun acc call =>
      if call.name ∈ diagnosticTools ∧ call.success = true
      then acc.markRelatedFailuresAddressed call
      else acc) v

/-- The record returned by `getFailureStats`. -/
structure FailureStats where
  totalFailures : Nat
  activeFailures : Nat
deriving Repr

/-- `getFailureStats`: cleanup, then count all records and the unaddressed
records still inside the cooldown window. -/
def ToolExecutionValidator.getFailureStats (v : ToolExecutionValidator)
    (now : Int) : FailureStats × ToolExecutionValidator :=
  let v₁ := v.cleanupOldFailures now
  (⟨v₁.recentFailures.length,
    (v₁.recentFailures.filter (fun kf =>
      decide (kf.2.wasAddressed = false ∧ now - kf.2.timestamp < v₁.failureTimeoutMs))).length⟩,
    v₁)

/-- `clearAll`. -/
def ToolExecutionValidator.clearAll (v : ToolExecutionValidator) :
    ToolExecutionValidator :=
  { v with recentFailures := [] }

/-! ### Association-list (Map) lemmas -/

theorem mapGet_eq_none_iff (k : String) (l : List (String × FailureInfo)) :
    mapGet k l = none ↔ k ∉ l.map Prod.fst := by
  induction l with
  | nil => simp [mapGet]
  | cons kf tl ih =>
      obtain ⟨k', f'⟩ := kf
      by_cases h : k' = k
      · subst h; simp [mapGet]
      · simp [mapGet, h, ih, Ne.symm h]

theorem mapGet_filter_of_pred {k : String} {l : List (String × FailureInfo)}
    {f : FailureInfo} {pred : String × FailureInfo → Bool}
    (hget : mapGet k l = some f) (hp : pred (k, f) = true) :
    mapGet k (l.filter pred) = some f := by
  induction l with
  | nil => simp [mapGet] at hget
  | cons kf tl ih =>
      obtain ⟨k', f'⟩ := kf
      by_cases h : k' = k
      · subst h
        rw [mapGet] at hget
        simp only [if_pos rfl] at hget
        obtain rfl : f' = f := Option.some.inj hget
        simp [List.filter, hp, mapGet]
      · rw [mapGet] at hget
        simp only [if_neg h] at hget
        by_cases hkeep : pred (k', f') = true
        · simp [List.filter, hkeep, mapGet, h, ih hget]
        · simp only [List.filter, Bool.not_eq_true] at hkeep ⊢
          rw [hkeep]
          exact ih hget

theorem mapGet_filter_none {k : String} {l : List (String × FailureInfo)}
    {pred : String × FailureInfo → Bool} (hget : mapGet k l = none) :
    mapGet k (l.filter pred) = none := by
  rw [mapGet_eq_none_iff] at hget ⊢
  intro hmem
  exact hget (by
    obtain ⟨kf, hkf, hfst⟩ := List.mem_map.mp hmem
    exact List.mem_map.mpr ⟨kf, (List.mem_filter.mp hkf).1, hfst⟩)

theorem mapGet_filter_of_not_pred {k : String} {l : List (String × FailureInfo)}
    {f : FailureInfo} {pred : String × FailureInfo → Bool}
    (hnd : (l.map Prod.fst).Nodup)
    (hget : mapGet k l = some f) (hp : pred (k, f) = false) :
    mapGet k (l.filter pred) = none := by
  induction l with
  | nil => simp [mapGet] at hget
  | cons kf tl ih =>
      obtain ⟨k', f'⟩ := kf
      simp only [List.map_cons, List.nodup_cons] at hnd
      by_cases h : k' = k
      · subst h
        rw [mapGet] at hget
        simp only [if_pos rfl] at hget
        obtain rfl : f' = f := Option.some.inj hget
        simp only [List.filter, hp]
        exact mapGet_filter_none (mapGet_eq_none_iff _ tl |>.mpr hnd.1)
      · rw [mapGet] at hget
        simp only [if_neg h] at hget
        by_cases hkeep : pred (k', f') = true
        · simp [List.filter, hkeep, mapGet, h, ih hnd.2 hget]
        · simp only [List.filter, Bool.not_eq_true] at hkeep ⊢
          rw [hkeep]
          exact ih hnd.2 hget

theorem mapGet_mapSet_self (k : String) (f : FailureInfo)
    (l : List (String × FailureInfo)) : mapGet k (mapSet k f l) = some f := by
  induction l with
  | nil => simp [mapSet, mapGet]
  | cons kf tl ih =>
      obtain ⟨k', f'⟩ := kf
      by_cases h : k' = k <;> simp [mapSet, mapGet, h, ih]

theorem mapGet_mapSet_ne {k k' : String} (hne : k' ≠ k) (f : FailureInfo)
    (l : List (String × FailureInfo)) :
    mapGet k' (mapSet k f l) = mapGet k' l := by
  induction l with
  | nil => simp [mapSet, mapGet, Ne.symm hne]
  | cons kf tl ih =>
      obtain ⟨k₀, f₀⟩ := kf
      by_cases h : k₀ = k
      · subst h
        simp [mapSet, mapGet, Ne.symm hne]
      · simp [mapSet, mapGet, h, ih]

theorem mapGet_mapDelete_self {k : String} {l : List (String × FailureInfo)}
    (hnd : (l.map Prod.fst).Nodup) : mapGet k (mapDelete k l) = none := by
  induction l with
  | nil => simp [mapDelete, mapGet]
  | cons kf tl ih =>
      obtain ⟨k', f'⟩ := kf
      simp only [List.map_cons, List.nodup_cons] at hnd
      by_cases h : k' = k
      · subst h
        simp only [mapDelete, if_pos rfl]
        exact mapGet_eq_none_iff k' tl |>.mpr hnd.1
      · simp [mapDelete, mapGet, h, ih hnd.2]

theorem mapGet_mapDelete_ne {k k' : String} (hne : k' ≠ k)
    (l : List (String × FailureInfo)) :
    mapGet k' (mapDelete k l) = mapGet k' l := by
  induction l with
  | nil => simp [mapDelete, mapGet]
  | cons kf tl ih =>
      obtain ⟨k₀, f₀⟩ := kf
      by_cases h : k₀ = k
      · subst h
        simp [mapDelete, mapGet, Ne.symm hne]
      · simp [mapDelete, mapGet, h, ih]

theorem mapSet_keys (k : String) (f : FailureInfo)
    (l : List (String × FailureInfo)) :
    (mapSet k f l).map Prod.fst =
      if k ∈ l.map Prod.fst then l.map Prod.fst else l.map Prod.fst ++ [k] := by
  induction l with
  | nil => simp [mapSet]
  | cons kf tl ih =>
      obtain ⟨k₀, f₀⟩ := kf
      by_cases h : k₀ = k
      · subst h; simp [mapSet]
      · simp only [mapSet, if_neg h, List.map_cons, ih, List.mem_cons]
        by_cases hmem : k ∈ tl.map Prod.fst
        · simp [hmem]
        · simp [hmem, Ne.symm h]

theorem mapSet_keys_nodup {k : String} {f : FailureInfo}
    {l : List (String × FailureInfo)} (hnd : (l.map Prod.fst).Nodup) :
    ((mapSet k f l).map Prod.fst).Nodup := by
  rw [mapSet_keys]
  by_cases hmem : k ∈ l.map Prod.fst
  · simpa [hmem] using hnd
  · simp [hmem, List.nodup_append, hnd]

theorem mapGet_map_entries (h : String → FailureInfo → FailureInfo)
    (k : String) (l : List (String × FailureInfo)) :
    mapGet k (l.map (fun kf => (kf.1, h kf.1 kf.2))) = (mapGet k l).map (h k) := by
  induction l with
  | nil => simp [mapGet]
  | cons kf tl ih =>
      obtain ⟨k', f'⟩ := kf
      by_cases hk : k' = k <;> simp [mapGet, hk, ih]

@[simp] theorem cleanup_failureTimeoutMs (v : ToolExecutionValidator) (now : Int) :
    (v.cleanupOldFailures now).failureTimeoutMs = v.failureTimeoutMs := rfl

@[simp] theorem cleanup_maxFailureAge (v : ToolExecutionValidator) (now : Int) :
    (v.cleanupOldFailures now).maxFailureAge = v.maxFailureAge := rfl

/-- The validator state a `validateBeforeExecution` call leaves behind is
exactly the cleaned-up store — also when the key computation throws, because
the cleanup pass precedes it in the source. -/
theorem validate_snd (v : ToolExecutionValidator) (now : Int) (t : String)
    (p : JSValue) :
    (v.validateBeforeExecution now t p).2 = v.cleanupOldFailures now := by
  unfold ToolExecutionValidator.validateBeforeExecution
  dsimp only
  repeat' split
  all_goals rfl

/-! ### Claim theorems: validation engine (C4, C5, C6, C7, C8) -/

/-- C4: `validateBeforeExecution` returns `allowed = false` exactly when,
after the cleanup pass, the fingerprint's record exists, is unaddressed, and
is younger than `failureTimeoutMs`; a blocked result carries the reason
string embedding the rounded elapsed seconds, the stored `requiredActions`,
and the stored failure record itself; every other case yields the bare
allowed result. -/
theorem C4_validate_block_iff (v : ToolExecutionValidator) (now : Int)
    (t : String) (p : JSValue) (k : String)
    (hk : generateToolKey t p = some k) :
    ∃ r, (v.validateBeforeExecution now t p).1 = some r ∧
      (r.allowed = false ↔
        ∃ f, mapGet k (v.cleanupOldFailures now).recentFailures = some f ∧
          f.wasAddressed = false ∧ now - f.timestamp < v.failureTimeoutMs) ∧
      (∀ f, mapGet k (v.cleanupOldFailures now).recentFailures = some f →
        f.wasAddressed = false → now - f.timestamp < v.failureTimeoutMs →
        r = ⟨false, some (mkBlockReason (now - f.timestamp)),
          some f.requiredActions, some f⟩) ∧
      (r.allowed = true → r = ⟨true, none, none, none⟩) := by
  unfold ToolExecutionValidator.validateBeforeExecution
  rw [hk]
  dsimp only
  simp only [cleanup_failureTimeoutMs]
  cases hm : mapGet k (v.cleanupOldFailures now).recentFailures with
  | none =>
      refine ⟨⟨true, none, none, none⟩, rfl, by simp, by simp, by simp⟩
  | some f =>
      dsimp only
      by_cases hc : now - f.timestamp < v.failureTimeoutMs ∧ f.wasAddressed = false
      · rw [if_pos hc]
        refine ⟨_, rfl, iff_of_true rfl ⟨f, rfl, hc.2, hc.1⟩, ?_, ?_⟩
        · intro f' hf' _ _
          obtain rfl : f = f' := Option.some.inj hf'
          rfl
        · intro h
          simp at h
      · rw [if_neg hc]
        refine ⟨⟨true, none, none, none⟩, rfl, ?_, ?_, by simp⟩
        · refine iff_of_false (by simp) ?_
          rintro ⟨f', hf', hNA, hT⟩
          obtain rfl : f = f' := Option.some.inj hf'
          exact hc ⟨hT, hNA⟩
        · intro f' hf' hNA hT
          obtain rfl : f = f' := Option.some.inj hf'
          exact absurd ⟨hT, hNA⟩ hc

/-- C5: an unaddressed record whose age has reached the cooldown window but
not the retention window makes validation allowed while leaving the record
in the store, still unaddressed. -/
theorem C5_cooldown_expiry (v : ToolExecutionValidator) (now : Int)
    (t : String) (p : JSValue) (k : String) (f : FailureInfo)
    (hk : generateToolKey t p = some k)
    (hf : mapGet k v.recentFailures = some f)
    (_hNA : f.wasAddressed = false)
    (hTO : v.failureTimeoutMs ≤ now - f.timestamp)
    (hAge : now - f.timestamp ≤ v.maxFailureAge) :
    (v.validateBeforeExecution now t p).1 = some ⟨true, none, none, none⟩ ∧
    mapGet k ((v.validateBeforeExecution now t p).2).recentFailures = some f := by
  have hkeep : mapGet k (v.cleanupOldFailures now).recentFailures = some f :=
    mapGet_filter_of_pred hf (decide_eq_true hAge)
  constructor
  · unfold ToolExecutionValidator.validateBeforeExecution
    rw [hk]
    dsimp only
    simp only [cleanup_failureTimeoutMs]
    rw [hkeep]
    dsimp only
    rw [if_neg]
    rintro ⟨hT, _⟩
    omega
  · rw [validate_snd]
    exact hkeep

/-- C6: `recordSuccess` on the failed fingerprint deletes its record and
leaves every other fingerprint's record alone, so the immediately following
validation of the same call is allowed. -/
theorem C6_success_clears (v : ToolExecutionValidator) (now : Int)
    (t : String) (p : JSValue) (k : String) (f : FailureInfo)
    (hWF : StoreWF v) (hk : generateToolKey t p = some k)
    (_hf : mapGet k v.recentFailures = some f) :
    ∃ v', v.recordSuccess t p = some v' ∧
      mapGet k v'.recentFailures = none ∧
      (∀ k', k' ≠ k → mapGet k' v'.recentFailures = mapGet k' v.recentFailures) ∧
      (v'.validateBeforeExecution now t p).1 = some ⟨true, none, none, none⟩ := by
  refine ⟨{ v with recentFailures := mapDelete k v.recentFailures }, ?_, ?_, ?_, ?_⟩
  · unfold ToolExecutionValidator.recordSuccess
    rw [hk]
  · exact mapGet_mapDelete_self hWF
  · intro k' hne
    exact mapGet_mapDelete_ne hne v.recentFailures
  · unfold ToolExecutionValidator.validateBeforeExecution
      ToolExecutionValidator.cleanupOldFailures
    rw [hk]
    dsimp only
    rw [mapGet_filter_none (mapGet_mapDelete_self hWF)]

/-- C7 (amended): for parameters whose fingerprint is defined,
`markFailureAddressed` sets `wasAddressed := true` in place when a record
exists — after which validation of the same fingerprint is allowed at every
instant, cooldown or not — and is a state-preserving no-op when no record
exists. -/
theorem C7_markAddressed (v : ToolExecutionValidator) (t : String)
    (p : JSValue) (k : String) (hk : generateToolKey t p = some k) :
    (∀ f, mapGet k v.recentFailures = some f → StoreWF v →
      ∃ v', v.markFailureAddressed t p = some v' ∧
        mapGet k v'.recentFailures = some { f with wasAddressed := true } ∧
        (∀ k', k' ≠ k → mapGet k' v'.recentFailures = mapGet k' v.recentFailures) ∧
        (∀ now, (v'.validateBeforeExecution now t p).1 =
          some ⟨true, none, none, none⟩)) ∧
    (mapGet k v.recentFailures = none → v.markFailureAddressed t p = some v) := by
  constructor
  · intro f hf hWF
    refine ⟨{ v with recentFailures := mapSet k { f with wasAddressed := true } v.recentFailures }, ?_, ?_, ?_, ?_⟩
    · unfold ToolExecutionValidator.markFailureAddressed
      rw [hk]
      dsimp only
      rw [hf]
    · exact mapGet_mapSet_self k _ v.recentFailures
    · intro k' hne
      exact mapGet_mapSet_ne hne _ v.recentFailures
    · intro now
      unfold ToolExecutionValidator.validateBeforeExecution
        ToolExecutionValidator.cleanupOldFailures
      rw [hk]
      dsimp only
      by_cases hkeep :
          (now - ({ f with wasAddressed := true } : FailureInfo).timestamp ≤
            v.maxFailureAge)
      · rw [mapGet_filter_of_pred (mapGet_mapSet_self k _ v.recentFailures)
          (decide_eq_true hkeep)]
        dsimp only
        rw [if_neg]
        rintro ⟨_, hcontra⟩
        simp at hcontra
      · rw [mapGet_filter_of_not_pred (mapSet_keys_nodup hWF)
          (mapGet_mapSet_self k _ v.recentFailures)
          (decide_eq_false hkeep)]
  · intro hnone
    unfold ToolExecutionValidator.markFailureAddressed
    rw [hk]
    dsimp only
    rw [hnone]

/-- C8: a record strictly older than `maxFailureAge` is removed by the
cleanup pass at the start of `validateBeforeExecution` and `getFailureStats`,
whatever its `wasAddressed` flag, and is therefore not among the records
`totalFailures` counts. -/
theorem C8_age_purge (v : ToolExecutionValidator) (now : Int) (k : String)
    (f : FailureInfo) (hWF : StoreWF v)
    (hf : mapGet k v.recentFailures = some f)
    (hAge : v.maxFailureAge < now - f.timestamp) :
    mapGet k (v.cleanupOldFailures now).recentFailures = none ∧
    (∀ t p, mapGet k ((v.validateBeforeExecution now t p).2).recentFailures = none) ∧
    mapGet k ((v.getFailureStats now).2).recentFailures = none ∧
    k ∉ ((v.getFailureStats now).2).recentFailures.map Prod.fst ∧
    (v.getFailureStats now).1.totalFailures =
      ((v.getFailureStats now).2).recentFailures.length := by
  have hclean : mapGet k (v.cleanupOldFailures now).recentFailures = none := by
    apply mapGet_filter_of_not_pred hWF hf
    simp only [decide_eq_false_iff_not, not_le]
    omega
  have hstats : (v.getFailureStats now).2 = v.cleanupOldFailures now := rfl
  refine ⟨hclean, fun t p => by rw [validate_snd]; exact hclean, ?_, ?_, rfl⟩
  · rw [hstats]; exact hclean
  · rw [hstats]
    exact (mapGet_eq_none_iff k _).mp hclean

/-! ### Claim theorems: diagnostic reconciliation (C9, C1) -/

/-- What `detectDiagnosticActions` can do to one stored entry: the key and
every field except `wasAddressed` are untouched, and `wasAddressed` never
falls back from `true` to `false`. -/
def EntryPreserved (old new : String × FailureInfo) : Prop :=
  new.1 = old.1 ∧ new.2.timestamp = old.2.timestamp ∧
    new.2.errorInfo = old.2.errorInfo ∧
    new.2.requiredActions = old.2.requiredActions ∧
    (old.2.wasAddressed = true → new.2.wasAddressed = true)

theorem entryPreserved_refl (e : String × FailureInfo) : EntryPreserved e e :=
  ⟨rfl, rfl, rfl, rfl, id⟩

theorem forall₂_entryPreserved_refl (l : List (String × FailureInfo)) :
    List.Forall₂ EntryPreserved l l := by
  induction l with
  | nil => exact List.Forall₂.nil
  | cons e tl ih => exact List.Forall₂.cons (entryPreserved_refl e) ih

theorem entryPreserved_trans {a b c : String × FailureInfo}
    (h₁ : EntryPreserved a b) (h₂ : EntryPreserved b c) : EntryPreserved a c := by
  obtain ⟨e₁, t₁, i₁, r₁, w₁⟩ := h₁
  obtain ⟨e₂, t₂, i₂, r₂, w₂⟩ := h₂
  exact ⟨e₂.trans e₁, t₂.trans t₁, i₂.trans i₁, r₂.trans r₁, fun h => w₂ (w₁ h)⟩

theorem forall₂_entryPreserved_trans {l₁ l₂ l₃ : List (String × FailureInfo)}
    (h₁ : List.Forall₂ EntryPreserved l₁ l₂)
    (h₂ : List.Forall₂ EntryPreserved l₂ l₃) :
    List.Forall₂ EntryPreserved l₁ l₃ := by
  induction h₁ generalizing l₃ with
  | nil => cases h₂; exact List.Forall₂.nil
  | cons hab htl ih =>
      cases h₂ with
      | cons hbc htl' => exact List.Forall₂.cons (entryPreserved_trans hab hbc) (ih htl')

theorem forall₂_entryPreserved_mark (fp : JSValue)
    (l : List (String × FailureInfo)) :
    List.Forall₂ EntryPreserved l
      (l.map (fun kf => if relatedFailure fp kf.1 kf.2
        then (kf.1, { kf.2 with wasAddressed := true }) else kf)) := by
  induction l with
  | nil => exact List.Forall₂.nil
  | cons e tl ih =>
      refine List.Forall₂.cons ?_ ih
      dsimp only
      by_cases h : relatedFailure fp e.1 e.2
      · rw [if_pos h]
        exact ⟨rfl, rfl, rfl, rfl, fun _ => rfl⟩
      · rw [if_neg h]
        exact entryPreserved_refl e

theorem markRelated_preserves (v : ToolExecutionValidator)
    (call : ToolCallRecord) :
    List.Forall₂ EntryPreserved v.recentFailures
      (v.markRelatedFailuresAddressed call).recentFailures := by
  unfold ToolExecutionValidator.markRelatedFailuresAddressed
  split
  · dsimp only
    split
    · exact forall₂_entryPreserved_mark _ v.recentFailures
    · exact forall₂_entryPreserved_refl v.recentFailures
  · exact forall₂_entryPreserved_refl v.recentFailures

/-- C9: the reconciliation pass never deletes or creates a record, never
lowers `wasAddressed` from `true` to `false`, and never touches a record's
timestamp, `errorInfo` or `requiredActions` — flipping `wasAddressed` from
`false` to `true` on existing records is its only possible effect. -/
theorem C9_detect_only_relaxes (v : ToolExecutionValidator)
    (calls : List ToolCallRecord) :
    List.Forall₂ EntryPreserved v.recentFailures
      (v.detectDiagnosticActions calls).recentFailures := by
  unfold ToolExecutionValidator.detectDiagnosticActions
  induction calls generalizing v with
  | nil => exact forall₂_entryPreserved_refl v.recentFailures
  | cons c cs ih =>
      simp only [List.foldl_cons]
      refine forall₂_entryPreserved_trans ?_ (ih _)
      split
      · exact markRelated_preserves v c
      · exact forall₂_entryPreserved_refl v.recentFailures

theorem mapGet_markRelated_map (fp : JSValue) (k : String)
    (l : List (String × FailureInfo)) :
    mapGet k (l.map (fun kf => if relatedFailure fp kf.1 kf.2
      then (kf.1, { kf.2 with wasAddressed := true }) else kf)) =
    (mapGet k l).map (fun f => if relatedFailure fp k f
      then { f with wasAddressed := true } else f) := by
  have hfun : (fun kf : String × FailureInfo =>
      if relatedFailure fp kf.1 kf.2
      then (kf.1, { kf.2 with wasAddressed := true }) else kf) =
      (fun kf : String × FailureInfo =>
        (kf.1, if relatedFailure fp kf.1 kf.2
          then { kf.2 with wasAddressed := true } else kf.2)) := by
    funext kf
    by_cases h : relatedFailure fp kf.1 kf.2
    · rw [if_pos h, if_pos h]
    · rw [if_neg h, if_neg h]
  rw [hfun]
  exact mapGet_map_entries
    (fun k f => if relatedFailure fp k f then { f with wasAddressed := true } else f) k l

/-- Effect of feeding a single successful `read_file` trace entry with a
(truthy) string `file_path` to the reconciliation pass, on each stored
record. -/
theorem detect_single_read_file (v : ToolExecutionValidator) (fp : String)
    (hfp : fp ≠ "") (k : String) (f : FailureInfo)
    (hk : mapGet k v.recentFailures = some f) :
    mapGet k ((v.detectDiagnosticActions
        [⟨"read_file", JSValue.obj [("file_path", JSValue.str fp)], true⟩]).recentFailures) =
      some (if relatedFailure (JSValue.str fp) k f
        then { f with wasAddressed := true } else f) := by
  unfold ToolExecutionValidator.detectDiagnosticActions
  simp only [List.foldl_cons, List.foldl_nil]
  rw [if_pos (by simp [diagnosticTools])]
  unfold ToolExecutionValidator.markRelatedFailuresAddressed
  rw [if_pos rfl]
  dsimp only
  have hget : jsGetProp "file_path"
      (JSValue.obj [("file_path", JSValue.str fp)]) = JSValue.str fp := by
    simp [jsGetProp, jsGetProp.jsField]
  rw [hget]
  rw [if_pos (show jsTruthy (JSValue.str fp) = true by simp [jsTruthy, hfp])]
  dsimp only
  rw [mapGet_markRelated_map, hk]
  rfl

/-- C1 (amended): a successful `read_file` call carrying a truthy string
`file_path` marks addressed exactly the stored records whose fingerprint
belongs to the `replace` tool, whose stored `context.filePath` strictly
equals that path, and whose error code is `EDIT_TEXT_NOT_FOUND` or
`EDIT_MULTIPLE_MATCHES` (the resolvable category set of `read_file`, the one
diagnostic tool with reconciliation behaviour); every other record — in
particular one recorded for a different file — is left exactly as it was. -/
theorem C1_read_file_reconciliation (v : ToolExecutionValidator) (fp : String)
    (hfp : fp ≠ "") (k : String) (f : FailureInfo)
    (hk : mapGet k v.recentFailures = some f) :
    mapGet k ((v.detectDiagnosticActions
        [⟨"read_file", JSValue.obj [("file_path", JSValue.str fp)], true⟩]).recentFailures) =
      some (if relatedFailure (JSValue.str fp) k f
        then { f with wasAddressed := true } else f) :=
  detect_single_read_file v fp hfp k f hk

/-- C1 (counterexample): the spec's own reconciliation example, run on the
code: a stored failure with code `"not_found"` and context
`filePath = "a.txt"` for the `replace:…a.txt` fingerprint is NOT marked
addressed by a successful `read_file` of `a.txt`, because the code only
matches the codes `EDIT_TEXT_NOT_FOUND` / `EDIT_MULTIPLE_MATCHES`. -/
theorem C1_counterexample :
    (mapGet "replace:\x7b\"file\":\"a.txt\"\x7d"
      ((ToolExecutionValidator.detectDiagnosticActions
        ⟨[("replace:\x7b\"file\":\"a.txt\"\x7d",
            ⟨0, ⟨"not_found", JSValue.obj [("filePath", JSValue.str "a.txt")],
              ["read file first"]⟩, ["read file first"], false⟩)], 30000, 300000⟩
        [⟨"read_file", JSValue.obj [("file_path", JSValue.str "a.txt")], true⟩]).recentFailures)).map
      FailureInfo.wasAddressed = some false := by
  have h := detect_single_read_file
    ⟨[("replace:\x7b\"file\":\"a.txt\"\x7d",
        ⟨0, ⟨"not_found", JSValue.obj [("filePath", JSValue.str "a.txt")],
          ["read file first"]⟩, ["read file first"], false⟩)], 30000, 300000⟩
    "a.txt" (by simp) "replace:\x7b\"file\":\"a.txt\"\x7d"
    ⟨0, ⟨"not_found", JSValue.obj [("filePath", JSValue.str "a.txt")],
      ["read file first"]⟩, ["read file first"], false⟩
    (by simp [mapGet])
  rw [h, if_neg]
  · rfl
  · rintro ⟨-, -, hcode | hcode⟩ <;> simp at hcode

/-- C10: the property-list replacer drops nested property names that do not
occur among the top-level keys, so `\x7ba:\x7bx:1\x7d\x7d` and
`\x7ba:\x7by:2\x7d\x7d` — logically different parameters — share one
fingerprint for the same tool, and a failure recorded under the first blocks
the second during the cooldown window. -/
theorem C10_nested_collision :
    generateToolKey "t" (JSValue.obj [("a", JSValue.obj [("x", JSValue.num 1)])]) =
      generateToolKey "t" (JSValue.obj [("a", JSValue.obj [("y", JSValue.num 2)])]) ∧
    ((ToolExecutionValidator.recordFailure ⟨[], 30000, 300000⟩ 0 "t"
        (JSValue.obj [("a", JSValue.obj [("x", JSValue.num 1)])])
        ⟨"not_found", JSValue.null, ["hint"]⟩).map (fun v' =>
      ((v'.validateBeforeExecution 1000 "t"
        (JSValue.obj [("a", JSValue.obj [("y", JSValue.num 2)])])).1).map
        ValidationResult.allowed)) = some (some false) := by
  have hg1 : generateToolKey "t" (JSValue.obj [("a", JSValue.obj [("x", JSValue.num 1)])]) =
      some "t:\x7b\"a\":\x7b\x7d\x7d" := by
    simp [generateToolKey, jsKeys, sortKeys, serializeVal, serializeMembers,
      serializeField, quoteStr, quoteChar, String.intercalate]
    rfl
  have hg2 : generateToolKey "t" (JSValue.obj [("a", JSValue.obj [("y", JSValue.num 2)])]) =
      some "t:\x7b\"a\":\x7b\x7d\x7d" := by
    simp [generateToolKey, jsKeys, sortKeys, serializeVal, serializeMembers,
      serializeField, quoteStr, quoteChar, String.intercalate]
    rfl
  refine ⟨hg1.trans hg2.symm, ?_⟩
  unfold ToolExecutionValidator.recordFailure
  rw [hg1]
  dsimp only [Option.map_some]
  unfold ToolExecutionValidator.validateBeforeExecution
    ToolExecutionValidator.cleanupOldFailures
  rw [hg2]
  dsimp only
  norm_num [mapSet, List.filter, mapGet]

/-! ### Claim theorems: fingerprint totality and scoping (C3) -/

/-- Cancellation of a shared suffix of strings. -/
theorem string_append_cancel_right {a b c : String} (h : a ++ c = b ++ c) :
    a = b := by
  have hd : a.data ++ c.data = b.data ++ c.data := by
    have := congrArg String.data h
    simpa [String.data_append] using this
  have hab : a.data = b.data := List.append_cancel_right hd
  cases a; cases b; exact congrArg String.mk hab

/-- C3 (counterexample): with absent (`undefined` or `null`) parameters the
fingerprint computation — and with it every guard operation that calls it —
throws a `TypeError` (modelled by `none`) instead of completing. -/
theorem C3_counterexample :
    generateToolKey "replace" JSValue.undefined = none ∧
    generateToolKey "replace" JSValue.null = none ∧
    ToolExecutionValidator.markFailureAddressed ⟨[], 30000, 300000⟩ "replace"
      JSValue.undefined = none ∧
    ToolExecutionValidator.recordSuccess ⟨[], 30000, 300000⟩ "replace"
      JSValue.null = none ∧
    (ToolExecutionValidator.validateBeforeExecution ⟨[], 30000, 300000⟩ 0
      "replace" JSValue.undefined).1 = none ∧
    ToolExecutionValidator.recordFailure ⟨[], 30000, 300000⟩ 0 "replace"
      JSValue.null ⟨"not_found", JSValue.null, []⟩ = none := by
  refine ⟨rfl, rfl, rfl, rfl, rfl, rfl⟩

/-- C3 (amended): for every parameter value other than `undefined`/`null` —
including the empty object and arbitrarily deeply nested structures — the
fingerprint computation and every guard operation calling it complete
without throwing, and the key is scoped by the tool name: two different
tool names never produce the same key for the same parameters. -/
theorem C3_no_throw_and_scoped (t : String) (p : JSValue)
    (h₁ : p ≠ JSValue.undefined) (h₂ : p ≠ JSValue.null) :
    (generateToolKey t p).isSome = true ∧
    (∀ v : ToolExecutionValidator, ∀ now,
      ((v.validateBeforeExecution now t p).1).isSome = true) ∧
    (∀ v : ToolExecutionValidator, ∀ now e,
      (v.recordFailure now t p e).isSome = true) ∧
    (∀ v : ToolExecutionValidator, (v.recordSuccess t p).isSome = true) ∧
    (∀ v : ToolExecutionValidator, (v.markFailureAddressed t p).isSome = true) ∧
    (∀ t', t ≠ t' → generateToolKey t p ≠ generateToolKey t' p) := by
  have hkeys : ∃ ks, jsKeys p = some ks := by
    cases p with
    | undefined => exact absurd rfl h₁
    | null => exact absurd rfl h₂
    | bool b => exact ⟨_, rfl⟩
    | num n => exact ⟨_, rfl⟩
    | str s => exact ⟨_, rfl⟩
    | arr xs => exact ⟨_, rfl⟩
    | obj fs => exact ⟨_, rfl⟩
  obtain ⟨ks, hks⟩ := hkeys
  have hkey : ∀ u : String, generateToolKey u p =
      some (u ++ ":" ++ ((serializeVal (sortKeys ks) p).getD "undefined")) := by
    intro u
    unfold generateToolKey
    rw [hks]
  refine ⟨by rw [hkey t]; rfl, ?_, ?_, ?_, ?_, ?_⟩
  · intro v now
    unfold ToolExecutionValidator.validateBeforeExecution
    rw [hkey t]
    dsimp only
    cases mapGet (t ++ ":" ++ ((serializeVal (sortKeys ks) p).getD "undefined"))
        (v.cleanupOldFailures now).recentFailures with
    | none => rfl
    | some f =>
        dsimp only
        split
        · rfl
        · rfl
  · intro v now e
    unfold ToolExecutionValidator.recordFailure
    rw [hkey t]
    rfl
  · intro v
    unfold ToolExecutionValidator.recordSuccess
    rw [hkey t]
    rfl
  · intro v
    unfold ToolExecutionValidator.markFailureAddressed
    rw [hkey t]
    dsimp only
    cases mapGet (t ++ ":" ++ ((serializeVal (sortKeys ks) p).getD "undefined"))
        v.recentFailures with
    | none => rfl
    | some f => rfl
  · intro t' hne
    rw [hkey t, hkey t']
    intro hcontra
    have hs := Option.some.inj hcontra
    have : t ++ ":" = t' ++ ":" := string_append_cancel_right hs
    exact hne (string_append_cancel_right this)

/-! ### Claim C2: fingerprint invariance under property reordering -/

/-- First field with the given name (a JavaScript object holds at most one). -/
def lookupField (p : String) : List (String × JSValue) → Option JSValue
  | [] => none
  | (k, v) :: tl => if k = p then some v else lookupField p tl

mutual
/-- `jsEquiv p q`: the two values contain the same key/value pairs at every
nesting depth, with object properties possibly listed in different orders:
atoms are equal, arrays are pointwise equivalent in order, and objects have
duplicate-free key sets such that each side's every field has an equivalent
field of the same name on the other side. -/
def jsEquiv : JSValue → JSValue → Bool
  | JSValue.undefined, JSValue.undefined => true
  | JSValue.null, JSValue.null => true
  | JSValue.bool a, JSValue.bool b => a == b
  | JSValue.num a, JSValue.num b => a == b
  | JSValue.str a, JSValue.str b => a == b
  | JSValue.arr xs, JSValue.arr ys => jsEquivList xs ys
  | JSValue.obj fs, JSValue.obj gs =>
      decide ((fs.map Prod.fst).Nodup) && decide ((gs.map Prod.fst).Nodup) &&
        jsEquivFields fs gs && jsEquivFields gs fs
  | _, _ => false
termination_by a b => (sizeOf a + sizeOf b, 0)
decreasing_by all_goals simp_wf; omega

/-- Pointwise equivalence of array elements. -/
def jsEquivList : List JSValue → List JSValue → Bool
  | [], [] => true
  | x :: xs, y :: ys => jsEquiv x y && jsEquivList xs ys
  | _, _ => false
termination_by xs ys => (sizeOf xs + sizeOf ys, 0)
decreasing_by all_goals simp_wf; omega

/-- Every field of the first list has an equivalent same-named field in the
second list. -/
def jsEquivFields : List (String × JSValue) → List (String × JSValue) → Bool
  | [], _ => true
  | (k, v) :: tl, gs => jsEquivLookup k v gs && jsEquivFields tl gs
termination_by fs gs => (sizeOf fs + sizeOf gs, 1)
decreasing_by all_goals simp_wf; omega

/-- The first field named `k` in the list is equivalent to `v`. -/
def jsEquivLookup (k : String) (v : JSValue) : List (String × JSValue) → Bool
  | [] => false
  | (k', w) :: tl => if k' = k then jsEquiv v w else jsEquivLookup k v tl
termination_by gs => (sizeOf v + sizeOf gs, 0)
decreasing_by all_goals simp_wf; omega
end

theorem serializeField_eq_lookup (props : List String) (p : String)
    (fs : List (String × JSValue)) :
    serializeField props p fs = (lookupField p fs).map (serializeVal props) := by
  induction fs with
  | nil => simp [serializeField, lookupField]
  | cons kv tl ih =>
      obtain ⟨k, v⟩ := kv
      by_cases h : k = p <;> simp [serializeField, lookupField, h, ih]

theorem lookupField_none_iff (p : String) (fs : List (String × JSValue)) :
    lookupField p fs = none ↔ p ∉ fs.map Prod.fst := by
  induction fs with
  | nil => simp [lookupField]
  | cons kv tl ih =>
      obtain ⟨k, v⟩ := kv
      by_cases h : k = p
      · subst h; simp [lookupField]
      · simp [lookupField, h, ih, Ne.symm h]

theorem lookupField_some_of_mem {p : String} {fs : List (String × JSValue)}
    (hmem : p ∈ fs.map Prod.fst) : ∃ v, lookupField p fs = some v := by
  cases hl : lookupField p fs with
  | none => exact absurd hmem ((lookupField_none_iff p fs).mp hl)
  | some v => exact ⟨v, rfl⟩

theorem lookupField_mem {p : String} {fs : List (String × JSValue)}
    {v : JSValue} (hl : lookupField p fs = some v) : p ∈ fs.map Prod.fst := by
  by_contra hmem
  rw [(lookupField_none_iff p fs).mpr hmem] at hl
  exact Option.noConfusion hl

theorem lookupField_sizeOf {p : String} {fs : List (String × JSValue)}
    {v : JSValue} (hl : lookupField p fs = some v) : sizeOf v < sizeOf fs := by
  induction fs with
  | nil => simp [lookupField] at hl
  | cons kv tl ih =>
      obtain ⟨k, w⟩ := kv
      by_cases h : k = p
      · rw [lookupField, if_pos h] at hl
        obtain rfl : w = v := Option.some.inj hl
        simp
        omega
      · rw [lookupField, if_neg h] at hl
        have := ih hl
        simp
        omega

theorem jsEquivLookup_iff {k : String} {v : JSValue}
    {gs : List (String × JSValue)} :
    jsEquivLookup k v gs = true ↔
      ∃ w, lookupField k gs = some w ∧ jsEquiv v w = true := by
  induction gs with
  | nil => simp [jsEquivLookup, lookupField]
  | cons kw tl ih =>
      obtain ⟨k', w'⟩ := kw
      by_cases h : k' = k
      · subst h
        simp [jsEquivLookup, lookupField]
      · simp [jsEquivLookup, lookupField, h, ih]

theorem jsEquivFields_lookup {fs gs : List (String × JSValue)}
    (hfg : jsEquivFields fs gs = true) {k : String} {v : JSValue}
    (hl : lookupField k fs = some v) : jsEquivLookup k v gs = true := by
  induction fs with
  | nil => simp [lookupField] at hl
  | cons kv tl ih =>
      obtain ⟨k₀, v₀⟩ := kv
      rw [jsEquivFields, Bool.and_eq_true] at hfg
      by_cases h : k₀ = k
      · subst h
        rw [lookupField, if_pos rfl] at hl
        obtain rfl : v₀ = v := Option.some.inj hl
        exact hfg.1
      · rw [lookupField, if_neg h] at hl
        exact ih hfg.2 hl

theorem jsEquivFields_keySub {fs gs : List (String × JSValue)}
    (hfg : jsEquivFields fs gs = true) :
    ∀ k ∈ fs.map Prod.fst, k ∈ gs.map Prod.fst := by
  intro k hk
  obtain ⟨v, hv⟩ := lookupField_some_of_mem hk
  obtain ⟨w, hw, -⟩ := jsEquivLookup_iff.mp (jsEquivFields_lookup hfg hv)
  exact lookupField_mem hw

theorem jsEquivList_length {xs ys : List JSValue}
    (h : jsEquivList xs ys = true) : xs.length = ys.length := by
  induction xs generalizing ys with
  | nil => cases ys with
      | nil => rfl
      | cons y ys => simp [jsEquivList] at h
  | cons x xs ih =>
      cases ys with
      | nil => simp [jsEquivList] at h
      | cons y ys =>
          rw [jsEquivList, Bool.and_eq_true] at h
          simp [ih h.2]

/-- Serialization (with any property list) is invariant under `jsEquiv`:
equivalent values serialize identically, pointwise-equivalent arrays give
the same element lists, and mutually covering field lists give the same
member lists.  Proven by strong induction on the sum of sizes. -/
theorem serialize_jsEquiv_all : ∀ n : Nat,
    (∀ p q, sizeOf p + sizeOf q ≤ n → jsEquiv p q = true →
      ∀ props, serializeVal props p = serializeVal props q) ∧
    (∀ xs ys, sizeOf xs + sizeOf ys ≤ n → jsEquivList xs ys = true →
      ∀ props, serializeElems props xs = serializeElems props ys) ∧
    (∀ fs gs, sizeOf fs + sizeOf gs ≤ n →
      jsEquivFields fs gs = true → jsEquivFields gs fs = true →
      ∀ props ps, serializeMembers props fs ps = serializeMembers props gs ps) := by
  intro n
  induction n using Nat.strong_induction_on with
  | _ n ih =>
    refine ⟨?_, ?_, ?_⟩
    · intro p q hsz he props
      cases p <;> cases q <;> (try (simp [jsEquiv] at he))
      case undefined.undefined => rfl
      case null.null => rfl
      case bool.bool a b => subst he; rfl
      case num.num a b => subst he; rfl
      case str.str a b => subst he; rfl
      case arr.arr xs ys =>
          have hsz' : sizeOf xs + sizeOf ys < n := by
            simp only [JSValue.arr.sizeOf_spec] at hsz
            omega
          have helems := (ih _ hsz').2.1 xs ys le_rfl he props
          simp only [serializeVal, helems]
      case obj.obj fs gs =>
          obtain ⟨⟨⟨-, -⟩, hfg⟩, hgf⟩ := he
          have hsz' : sizeOf fs + sizeOf gs < n := by
            simp only [JSValue.obj.sizeOf_spec] at hsz
            omega
          have hmem := (ih _ hsz').2.2 fs gs le_rfl hfg hgf props props
          simp only [serializeVal, hmem]
    · intro xs ys hsz he props
      cases xs with
      | nil =>
          cases ys with
          | nil => rfl
          | cons y ys => simp [jsEquivList] at he
      | cons x xs =>
          cases ys with
          | nil => simp [jsEquivList] at he
          | cons y ys =>
              rw [jsEquivList, Bool.and_eq_true] at he
              have hsz₁ : sizeOf x + sizeOf y < n := by
                simp only [List.cons.sizeOf_spec] at hsz
                omega
              have hsz₂ : sizeOf xs + sizeOf ys < n := by
                simp only [List.cons.sizeOf_spec] at hsz
                omega
              have hx := (ih _ hsz₁).1 x y le_rfl he.1 props
              have hxs := (ih _ hsz₂).2.1 xs ys le_rfl he.2 props
              simp only [serializeElems, hx, hxs]
    · intro fs gs hsz hfg hgf props ps
      induction ps with
      | nil => simp only [serializeMembers]
      | cons p ps ihps =>
          rw [serializeMembers, serializeMembers,
            serializeField_eq_lookup, serializeField_eq_lookup]
          cases hl : lookupField p fs with
          | none =>
              have hnone : lookupField p gs = none := by
                rw [lookupField_none_iff]
                intro hmem
                exact (lookupField_none_iff p fs).mp hl
                  (jsEquivFields_keySub hgf p hmem)
              rw [hnone]
              dsimp only [Option.map]
              exact ihps
          | some v =>
              obtain ⟨w, hw, hvw⟩ :=
                jsEquivLookup_iff.mp (jsEquivFields_lookup hfg hl)
              have hsz' : sizeOf v + sizeOf w < n := by
                have h₁ := lookupField_sizeOf hl
                have h₂ := lookupField_sizeOf hw
                omega
              have hval := (ih _ hsz').1 v w le_rfl hvw props
              rw [hw]
              dsimp only [Option.map]
              rw [hval]
              cases serializeVal props w with
              | none => exact ihps
              | some s => simp only [ihps]

theorem charListLe_total : ∀ as bs : List Char,
    charListLe as bs = true ∨ charListLe bs as = true
  | [], _ => Or.inl rfl
  | _ :: _, [] => Or.inr rfl
  | a :: as, b :: bs => by
      by_cases hab : a = b
      · subst hab
        rcases charListLe_total as bs with h | h
        · exact Or.inl (by simp [charListLe, h])
        · exact Or.inr (by simp [charListLe, h])
      · rcases lt_trichotomy a b with h | h | h
        · exact Or.inl (by simp [charListLe, hab, h])
        · exact absurd h hab
        · exact Or.inr (by simp [charListLe, Ne.symm hab, h])

theorem charListLe_trans : ∀ as bs cs : List Char,
    charListLe as bs = true → charListLe bs cs = true →
    charListLe as cs = true
  | [], _, _ => by intro _ _; rfl
  | a :: as, [], _ => by intro h _; simp [charListLe] at h
  | a :: as, b :: bs, [] => by intro _ h; simp [charListLe] at h
  | a :: as, b :: bs, c :: cs => by
      intro h₁ h₂
      by_cases hab : a = b <;> by_cases hbc : b = c
      · subst hab; subst hbc
        rw [charListLe, if_pos rfl] at h₁ h₂ ⊢
        exact charListLe_trans as bs cs h₁ h₂
      · subst hab
        rw [charListLe, if_neg hbc] at h₂
        rw [charListLe, if_neg hbc]
        exact h₂
      · subst hbc
        rw [charListLe, if_neg hab] at h₁
        rw [charListLe, if_neg hab]
        exact h₁
      · rw [charListLe, if_neg hab] at h₁
        rw [charListLe, if_neg hbc] at h₂
        have h₁' : a < b := of_decide_eq_true h₁
        have h₂' : b < c := of_decide_eq_true h₂
        have hac : a < c := h₁'.trans h₂'
        rw [charListLe, if_neg (ne_of_lt hac)]
        exact decide_eq_true hac

theorem charListLe_antisymm : ∀ as bs : List Char,
    charListLe as bs = true → charListLe bs as = true → as = bs
  | [], [] => by intro _ _; rfl
  | [], _ :: _ => by intro _ h; simp [charListLe] at h
  | _ :: _, [] => by intro h _; simp [charListLe] at h
  | a :: as, b :: bs => by
      intro h₁ h₂
      by_cases hab : a = b
      · subst hab
        rw [charListLe, if_pos rfl] at h₁ h₂
        rw [charListLe_antisymm as bs h₁ h₂]
      · rw [charListLe, if_neg hab] at h₁
        rw [charListLe, if_neg (Ne.symm hab)] at h₂
        have h₁' : a < b := of_decide_eq_true h₁
        have h₂' : b < a := of_decide_eq_true h₂
        exact absurd h₂' (not_lt_of_lt h₁')

instance : IsTotal String (fun a b => strLe a b = true) :=
  ⟨fun a b => charListLe_total a.data b.data⟩

instance : IsTrans String (fun a b => strLe a b = true) :=
  ⟨fun a b c => charListLe_trans a.data b.data c.data⟩

instance : IsAntisymm String (fun a b => strLe a b = true) :=
  ⟨fun a b h₁ h₂ => by
    have := charListLe_antisymm a.data b.data h₁ h₂
    cases a; cases b; exact congrArg String.mk this⟩

/-- Two permuted key lists sort identically. -/
theorem sortKeys_eq_of_perm {ks₁ ks₂ : List String} (h : ks₁.Perm ks₂) :
    sortKeys ks₁ = sortKeys ks₂ :=
  List.eq_of_perm_of_sorted
    ((List.perm_insertionSort _ ks₁).trans
      (h.trans (List.perm_insertionSort _ ks₂).symm))
    (List.sorted_insertionSort _ ks₁) (List.sorted_insertionSort _ ks₂)

/-- C2: the fingerprint is invariant under reordering object properties at
any nesting depth — `jsEquiv`-equivalent parameter structures always receive
the same key for the same tool — and in particular
`fingerprint("replace", \x7ba:1, b:2\x7d)` equals
`fingerprint("replace", \x7bb:2, a:1\x7d)`, while
`fingerprint("replace", \x7ba:1\x7d)` differs from
`fingerprint("write", \x7ba:1\x7d)`. -/
theorem C2_fingerprint_stability :
    (∀ t p q, jsEquiv p q = true → generateToolKey t p = generateToolKey t q) ∧
    generateToolKey "replace" (JSValue.obj [("a", JSValue.num 1), ("b", JSValue.num 2)]) =
      generateToolKey "replace" (JSValue.obj [("b", JSValue.num 2), ("a", JSValue.num 1)]) ∧
    generateToolKey "replace" (JSValue.obj [("a", JSValue.num 1)]) ≠
      generateToolKey "write" (JSValue.obj [("a", JSValue.num 1)]) := by
  refine ⟨?_, ?_, ?_⟩
  · intro t p q he
    cases p <;> cases q <;> (try (simp [jsEquiv] at he))
    case undefined.undefined => rfl
    case null.null => rfl
    case bool.bool a b => subst he; rfl
    case num.num a b => subst he; rfl
    case str.str a b => subst he; rfl
    case arr.arr xs ys =>
        have hlen := jsEquivList_length he
        unfold generateToolKey
        simp only [jsKeys, hlen]
        have hval := (serialize_jsEquiv_all (sizeOf (JSValue.arr xs) + sizeOf (JSValue.arr ys))).1
          (JSValue.arr xs) (JSValue.arr ys) le_rfl (by simp [jsEquiv, he]) 
        rw [hval]
    case obj.obj fs gs =>
        obtain ⟨⟨⟨nd₁, nd₂⟩, hfg⟩, hgf⟩ := he
        have hperm : (fs.map Prod.fst).Perm (gs.map Prod.fst) :=
          (List.perm_ext_iff_of_nodup nd₁ nd₂).mpr
            (fun a => ⟨jsEquivFields_keySub hfg a, jsEquivFields_keySub hgf a⟩)
        unfold generateToolKey
        simp only [jsKeys]
        rw [sortKeys_eq_of_perm hperm]
        have hval := (serialize_jsEquiv_all (sizeOf (JSValue.obj fs) + sizeOf (JSValue.obj gs))).1
          (JSValue.obj fs) (JSValue.obj gs) le_rfl
          (by simp [jsEquiv, nd₁, nd₂, hfg, hgf])
        rw [hval]
  · have h1 : sortKeys ["a", "b"] = ["a", "b"] := by decide
    have h2 : sortKeys ["b", "a"] = ["a", "b"] := by decide
    simp [generateToolKey, jsKeys, h1, h2, serializeVal, serializeMembers,
      serializeField, quoteStr, quoteChar, String.intercalate]
  · have h1 : sortKeys ["a"] = ["a"] := by decide
    simp only [generateToolKey, jsKeys, h1, serializeVal, serializeMembers,
      serializeField, quoteStr, quoteChar, String.intercalate, Option.getD]
    decide

/-- C7 (counterexample): on an empty store — no record exists for any
fingerprint — `markFailureAddressed` with `null` parameters throws the
`Object.keys` `TypeError` (modelled by `none`) instead of being a no-op. -/
theorem C7_counterexample :
    ToolExecutionValidator.markFailureAddressed ⟨[], 30000, 300000⟩ "replace"
      JSValue.null = none := rfl

/-! ### Concrete scenario shared by the witnesses -/

def wParams : JSValue := JSValue.obj [("file", JSValue.str "x")]

def wKey : String := "replace:\x7b\"file\":\"x\"\x7d"

def wError : ToolErrorInfo :=
  ⟨"not_found", JSValue.obj [("filePath", JSValue.str "x")], ["read file first"]⟩

def wFailure : FailureInfo := ⟨0, wError, ["read file first"], false⟩

def wStore : ToolExecutionValidator := ⟨[(wKey, wFailure)], 30000, 300000⟩

theorem wKey_spec : generateToolKey "replace" wParams = some wKey := by
  simp [wParams, wKey, generateToolKey, jsKeys, sortKeys, serializeVal,
    serializeMembers, serializeField, quoteStr, quoteChar, String.intercalate]
  rfl

theorem wStore_get : mapGet wKey wStore.recentFailures = some wFailure := by
  simp [wStore, mapGet]

theorem wStore_wf : StoreWF wStore := by
  simp [StoreWF, wStore]

/-- Witness for C4 at a concrete blocked scenario. -/
theorem C4_witness :
    generateToolKey "replace" wParams = some wKey ∧
    (∃ r, (wStore.validateBeforeExecution 1000 "replace" wParams).1 = some r ∧
      (r.allowed = false ↔
        ∃ f, mapGet wKey (wStore.cleanupOldFailures 1000).recentFailures = some f ∧
          f.wasAddressed = false ∧ 1000 - f.timestamp < wStore.failureTimeoutMs) ∧
      (∀ f, mapGet wKey (wStore.cleanupOldFailures 1000).recentFailures = some f →
        f.wasAddressed = false → 1000 - f.timestamp < wStore.failureTimeoutMs →
        r = ⟨false, some (mkBlockReason (1000 - f.timestamp)),
          some f.requiredActions, some f⟩) ∧
      (r.allowed = true → r = ⟨true, none, none, none⟩)) :=
  ⟨wKey_spec, C4_validate_block_iff wStore 1000 "replace" wParams wKey wKey_spec⟩

/-- Witness for C5: thirty seconds after the failure the same call passes
validation and the record is still present. -/
theorem C5_witness :
    (wStore.validateBeforeExecution 30000 "replace" wParams).1 =
      some ⟨true, none, none, none⟩ ∧
    mapGet wKey ((wStore.validateBeforeExecution 30000 "replace" wParams).2).recentFailures =
      some wFailure :=
  C5_cooldown_expiry wStore 30000 "replace" wParams wKey wFailure wKey_spec
    wStore_get rfl (by decide) (by decide)

/-- Witness for C6 at the concrete store. -/
theorem C6_witness :
    ∃ v', wStore.recordSuccess "replace" wParams = some v' ∧
      mapGet wKey v'.recentFailures = none ∧
      (∀ k', k' ≠ wKey → mapGet k' v'.recentFailures = mapGet k' wStore.recentFailures) ∧
      (v'.validateBeforeExecution 1000 "replace" wParams).1 =
        some ⟨true, none, none, none⟩ :=
  C6_success_clears wStore 1000 "replace" wParams wKey wFailure wStore_wf
    wKey_spec wStore_get

/-- Witness for C7 at the concrete store. -/
theorem C7_witness :
    ∃ v', wStore.markFailureAddressed "replace" wParams = some v' ∧
      mapGet wKey v'.recentFailures = some { wFailure with wasAddressed := true } ∧
      (∀ k', k' ≠ wKey → mapGet k' v'.recentFailures = mapGet k' wStore.recentFailures) ∧
      (∀ now, (v'.validateBeforeExecution now "replace" wParams).1 =
        some ⟨true, none, none, none⟩) :=
  (C7_markAddressed wStore "replace" wParams wKey wKey_spec).1 wFailure
    wStore_get wStore_wf

/-- Witness for C8: at `now = 400000` the record (age 400000 ms, addressed or
not) is purged everywhere. -/
theorem C8_witness :
    mapGet wKey (wStore.cleanupOldFailures 400000).recentFailures = none ∧
    (∀ t p, mapGet wKey ((wStore.validateBeforeExecution 400000 t p).2).recentFailures = none) ∧
    mapGet wKey ((wStore.getFailureStats 400000).2).recentFailures = none ∧
    wKey ∉ ((wStore.getFailureStats 400000).2).recentFailures.map Prod.fst ∧
    (wStore.getFailureStats 400000).1.totalFailures =
      ((wStore.getFailureStats 400000).2).recentFailures.length :=
  C8_age_purge wStore 400000 wKey wFailure wStore_wf wStore_get (by decide)

/-! Witness scenario for C1: two edit-failure records, one for `a.txt` and
one for `b.txt`. -/

def wAKey : String := "replace:\x7b\"file\":\"a.txt\"\x7d"

def wBKey : String := "replace:\x7b\"file\":\"b.txt\"\x7d"

def wAFailure : FailureInfo :=
  ⟨0, ⟨"EDIT_TEXT_NOT_FOUND", JSValue.obj [("filePath", JSValue.str "a.txt")],
    ["read it"]⟩, ["read it"], false⟩

def wBFailure : FailureInfo :=
  ⟨0, ⟨"EDIT_TEXT_NOT_FOUND", JSValue.obj [("filePath", JSValue.str "b.txt")],
    ["read it"]⟩, ["read it"], false⟩

def wABStore : ToolExecutionValidator :=
  ⟨[(wAKey, wAFailure), (wBKey, wBFailure)], 30000, 300000⟩

/-- Witness for C1 (amended): a successful `read_file` of `a.txt` marks the
`a.txt` edit failure addressed and leaves the `b.txt` one untouched. -/
theorem C1_witness :
    mapGet wAKey ((wABStore.detectDiagnosticActions
      [⟨"read_file", JSValue.obj [("file_path", JSValue.str "a.txt")], true⟩]).recentFailures) =
      some { wAFailure with wasAddressed := true } ∧
    mapGet wBKey ((wABStore.detectDiagnosticActions
      [⟨"read_file", JSValue.obj [("file_path", JSValue.str "a.txt")], true⟩]).recentFailures) =
      some wBFailure := by
  constructor
  · have h := C1_read_file_reconciliation wABStore "a.txt" (by simp) wAKey
      wAFailure (by simp [wABStore, mapGet])
    rw [h, if_pos]
    exact ⟨by decide, by simp [wAFailure, jsGetProp, jsGetProp.jsField, jsStrictEq],
      Or.inl rfl⟩
  · have h := C1_read_file_reconciliation wABStore "a.txt" (by simp) wBKey
      wBFailure (by simp [wABStore, mapGet, wAKey, wBKey])
    rw [h, if_neg]
    rintro ⟨-, hctx, -⟩
    simp [wBFailure, jsGetProp, jsGetProp.jsField, jsStrictEq] at hctx

/-- Witness for C2: a nested reorder of properties, fingerprinted equal. -/
theorem C2_witness :
    jsEquiv (JSValue.obj [("a", JSValue.obj [("x", JSValue.num 1), ("y", JSValue.num 2)])])
      (JSValue.obj [("a", JSValue.obj [("y", JSValue.num 2), ("x", JSValue.num 1)])]) = true ∧
    generateToolKey "replace"
      (JSValue.obj [("a", JSValue.obj [("x", JSValue.num 1), ("y", JSValue.num 2)])]) =
    generateToolKey "replace"
      (JSValue.obj [("a", JSValue.obj [("y", JSValue.num 2), ("x", JSValue.num 1)])]) :=
  ⟨by simp [jsEquiv, jsEquivFields, jsEquivLookup, lookupField],
   C2_fingerprint_stability.1 "replace" _ _
    (by simp [jsEquiv, jsEquivFields, jsEquivLookup, lookupField])⟩

/-- Witness for C3 (amended) at the empty-object parameters. -/
theorem C3_witness :
    (generateToolKey "replace" (JSValue.obj [])).isSome = true ∧
    (∀ v : ToolExecutionValidator, ∀ now,
      ((v.validateBeforeExecution now "replace" (JSValue.obj [])).1).isSome = true) ∧
    (∀ v : ToolExecutionValidator, ∀ now e,
      (v.recordFailure now "replace" (JSValue.obj []) e).isSome = true) ∧
    (∀ v : ToolExecutionValidator,
      (v.recordSuccess "replace" (JSValue.obj [])).isSome = true) ∧
    (∀ v : ToolExecutionValidator,
      (v.markFailureAddressed "replace" (JSValue.obj [])).isSome = true) ∧
    (∀ t', "replace" ≠ t' →
      generateToolKey "replace" (JSValue.obj []) ≠ generateToolKey t' (JSValue.obj [])) :=
  C3_no_throw_and_scoped "replace" (JSValue.obj [])
    (fun h => JSValue.noConfusion h) (fun h => JSValue.noConfusion h)
